import Mathlib

/-!
Formalisation of the scan-classify-aggregate-mutate pipeline of
harbour-mashka (src/src/mmodel.cpp): filesystem size probing, batch path
removal, per-record category clearing, registry mutation with aggregate
totals, and the list-model read interface.
-/

set_option autoImplicit false

/-- Abstract view of the filesystem as seen by mmodel.cpp. A path can be a
directory or a regular file; dirSize abstracts the QDirIterator walk in
getSize (total size of all files under the directory), fileSize the
QFileInfo size of a regular file. dirRemoveOk and fileRemoveOk abstract
whether QDir removeRecursively, resp. QFile remove, succeeds on the path. -/
structure FS where
  isDir : String → Bool
  isFile : String → Bool
  dirSize : String → Int
  fileSize : String → Int
  dirRemoveOk : String → Bool
  fileRemoveOk : String → Bool

/-- getSize from mmodel.cpp lines 12 to 30: result starts at 0; a directory
contributes the accumulated size of the files below it, a regular file its
own size, and any other path contributes nothing. -/
def getSize (fs : FS) (path : String) : Int :=
  if fs.isDir path then fs.dirSize path
  else if fs.isFile path then fs.fileSize path
  else 0

/-- The deletion attempt of MModel removePaths lines 143 to 145: recursive
removal for a directory, single removal for a file, failure for anything
else. -/
def removeOk (fs : FS) (p : String) : Bool :=
  if fs.isDir p then fs.dirRemoveOk p
  else if fs.isFile p then fs.fileRemoveOk p
  else false

/-- Filesystem after the paths in dead have been deleted: they are no longer
directories nor files. Only the removed roots are tracked; no recorded path
in the model points strictly inside another removed path. -/
def maskFS (fs : FS) (dead : List String) : FS :=
  { fs with
    isDir := fun p => fs.isDir p && !(dead.contains p),
    isFile := fun p => fs.isFile p && !(dead.contains p) }

/-- Outcome of MModel removePaths: the filesystem after the batch, the
accumulated reclaimed bytes (the C++ return value), the paths for which a
deletionError signal was emitted, in order, and the successfully removed
paths, in order. -/
structure RemoveResult where
  fs : FS
  reclaimed : Int
  errors : List String
  removed : List String

/-- The second loop of MModel removePaths lines 137 to 161: measure the size
of each path before the deletion attempt, add it to the running total on
success, emit a deletionError on failure, and in either case continue with
the remaining paths. -/
def MModel.removeLoop (fs : FS) : List String → RemoveResult
  | [] => ⟨fs, 0, [], []⟩
  | p :: rest =>
    let size := getSize fs p
    if removeOk fs p then
      let r := MModel.removeLoop (maskFS fs [p]) rest
      ⟨r.fs, size + r.reclaimed, r.errors, p :: r.removed⟩
    else
      let r := MModel.removeLoop fs rest
      ⟨r.fs, r.reclaimed, p :: r.errors, r.removed⟩

/-- MModel removePaths lines 126 to 164: if any path of the batch is the
empty string the whole batch is aborted with result 0 before anything is
deleted; otherwise every path is processed by the deletion loop. -/
def MModel.removePaths (fs : FS) (paths : List String) : RemoveResult :=
  if paths.any (fun p => p.isEmpty) then ⟨fs, 0, [], []⟩
  else MModel.removeLoop fs paths

/-- Modelled from the spec: MEntry is declared in mmodel.h, which is not part
of src/. Its fields are reconstructed from their uses in mmodel.cpp and from
spec section 3: three category path lists with cached sizes, the installed
flag, and the display title and icon. -/
structure MEntry where
  config_paths : List String := []
  cache_paths : List String := []
  data_paths : List String := []
  config_size : Int := 0
  cache_size : Int := 0
  data_size : Int := 0
  installed : Bool := false
  title : String := ""
  icon : String := ""
deriving DecidableEq, Repr, Inhabited

/-- Modelled from the spec: MEntry exists is declared in mmodel.h, which is
not part of src/. Per spec section 3 (a record with all categories empty is
non-existent and must be removed) and property P5 (clearing the only
nonempty category prunes the record while clearEntry zeroes only the cached
sizes), a record exists exactly when some category has a positive cached
size. -/
def MEntry.existsb (e : MEntry) : Bool :=
  decide (0 < e.config_size) || decide (0 < e.cache_size) || decide (0 < e.data_size)

/-- Modelled from the spec: the DataTypes flag set is declared in mmodel.h,
which is not part of src/. Per spec section 6 it is a bitset over the three
categories config, cache and local-data. -/
structure DataTypes where
  config : Bool
  cache : Bool
  localData : Bool
deriving DecidableEq, Repr

/-- Modelled from the spec: the role enum values are declared in mmodel.h,
which is not part of src/. They are fixed here as distinct integers in the
Qt user-role convention; the development depends only on their being
distinct. -/
def NameRole : Int := 257

def TitleRole : Int := 258

def IconRole : Int := 259

def InstalledRole : Int := 260

def ConfigSizeRole : Int := 261

def CacheSizeRole : Int := 262

def LocalDataSizeRole : Int := 263

def SortRole : Int := 264

/-- State threaded through the three category blocks of MModel clearEntry:
the filesystem, the entry being mutated in place, the accumulated deleted
byte count, the changed roles vector and the deletionError emissions. -/
structure ClearState where
  fs : FS
  entry : MEntry
  deleted : Int
  changed : List Int
  errors : List String

/-- The config block of MModel clearEntry lines 170 to 179: when the config
category is requested and its cached size is positive, run removePaths on
its path list; when that reclaims a positive number of bytes, zero the
cached size, add the reclaimed bytes to deleted and mark ConfigSizeRole
changed. The path list itself is never cleared. -/
def MModel.clearStepConfig (types : DataTypes) (st : ClearState) : ClearState :=
  if types.config ∧ 0 < st.entry.config_size then
    let r := MModel.removePaths st.fs st.entry.config_paths
    if 0 < r.reclaimed then
      { fs := r.fs, entry := { st.entry with config_size := 0 },
        deleted := st.deleted + r.reclaimed,
        changed := st.changed ++ [ConfigSizeRole],
        errors := st.errors ++ r.errors }
    else
      { st with fs := r.fs, errors := st.errors ++ r.errors }
  else st

/-- The cache block of MModel clearEntry lines 180 to 189, analogous to the
config block. -/
def MModel.clearStepCache (types : DataTypes) (st : ClearState) : ClearState :=
  if types.cache ∧ 0 < st.entry.cache_size then
    let r := MModel.removePaths st.fs st.entry.cache_paths
    if 0 < r.reclaimed then
      { fs := r.fs, entry := { st.entry with cache_size := 0 },
        deleted := st.deleted + r.reclaimed,
        changed := st.changed ++ [CacheSizeRole],
        errors := st.errors ++ r.errors }
    else
      { st with fs := r.fs, errors := st.errors ++ r.errors }
  else st

/-- The local-data block of MModel clearEntry lines 190 to 199, analogous to
the config block. -/
def MModel.clearStepData (types : DataTypes) (st : ClearState) : ClearState :=
  if types.localData ∧ 0 < st.entry.data_size then
    let r := MModel.removePaths st.fs st.entry.data_paths
    if 0 < r.reclaimed then
      { fs := r.fs, entry := { st.entry with data_size := 0 },
        deleted := st.deleted + r.reclaimed,
        changed := st.changed ++ [LocalDataSizeRole],
        errors := st.errors ++ r.errors }
    else
      { st with fs := r.fs, errors := st.errors ++ r.errors }
  else st

/-- MModel clearEntry lines 166 to 202: the three category blocks run in
order on the entry, starting from deleted equal to 0 and an empty changed
vector. -/
def MModel.clearEntry (fs : FS) (e : MEntry) (types : DataTypes) : ClearState :=
  MModel.clearStepData types (MModel.clearStepCache types
    (MModel.clearStepConfig types ⟨fs, e, 0, [], []⟩))

/-- Sum of getSize over a list of recorded paths, the quantity the spec
relates to the cached category size. -/
def pathsSizeSum (fs : FS) (paths : List String) : Int :=
  (paths.map (fun p => getSize fs p)).sum

/-- Two filesystems agree on a path when every probe of the path gives the
same answer in both. -/
def agreesOn (fs fs' : FS) (p : String) : Prop :=
  fs'.isDir p = fs.isDir p ∧ fs'.isFile p = fs.isFile p ∧
  fs'.dirSize p = fs.dirSize p ∧ fs'.fileSize p = fs.fileSize p ∧
  fs'.dirRemoveOk p = fs.dirRemoveOk p ∧ fs'.fileRemoveOk p = fs.fileRemoveOk p

/-- Lookup in the name-to-record map (QMap value lookup, first matching
key). -/
def mapLookup : List (String × MEntry) → String → Option MEntry
  | [], _ => none
  | (k, v) :: rest, key => if key == k then some v else mapLookup rest key

/-- Update of an existing key in the name-to-record map, as performed by the
QMap index operator on a contained key; an absent key is appended. The
mutating operations of the model only ever update keys that are present. -/
def mapInsert : List (String × MEntry) → String → MEntry → List (String × MEntry)
  | [], key, v => [(key, v)]
  | (k, w) :: rest, key, v =>
    if key == k then (key, v) :: rest else (k, w) :: mapInsert rest key v

/-- Removal of a key from the name-to-record map (QMap remove; QMap keys are
unique, so removing the first match suffices). -/
def mapRemove : List (String × MEntry) → String → List (String × MEntry)
  | [], _ => []
  | (k, w) :: rest, key =>
    if key == k then rest else (k, w) :: mapRemove rest key

/-- QList indexOf: index of the first occurrence, or minus one. -/
def idxOfAux (x : String) : List String → Int → Int
  | [], _ => -1
  | y :: rest, i => if y == x then i else idxOfAux x rest (i + 1)

/-- Index of a name in the ordered name list, as used for the row argument of
the change notifications. -/
def idxOf (l : List String) (x : String) : Int :=
  idxOfAux x l 0

/-- The per-directory merge step of the discovery loop of MModel resetImpl,
mmodel.cpp lines 250 to 274: compute the size of the discovered directory,
append its name to the ordered name list when the map does not contain it
yet, fetch or default-create its record (the QMap index operator), then
append the directory path to the path list of the category of the current
search root and overwrite that category's cached size with the size of this
directory alone. Root index 0 is the config root, 1 the cache root and 2
the local-data root (the switch default is unreachable in the source). -/
def MModel.resetMergeStep (fs : FS) (i : Nat) (dirpath dirname : String)
    (names : List String) (entries : List (String × MEntry)) :
    List String × List (String × MEntry) :=
  let size := getSize fs dirpath
  let names1 :=
    if (mapLookup entries dirname).isSome then names else names ++ [dirname]
  let e := (mapLookup entries dirname).getD {}
  let e1 :=
    if i = 0 then
      { e with config_paths := e.config_paths ++ [dirpath], config_size := size }
    else if i = 1 then
      { e with cache_paths := e.cache_paths ++ [dirpath], cache_size := size }
    else
      { e with data_paths := e.data_paths ++ [dirpath], data_size := size }
  (names1, mapInsert entries dirname e1)

/-- State of MModel: the ordered name list, the name-to-record map (kept as
an association list; the claims proved below do not depend on the QMap key
ordering of the iteration), the busy flag and the seven aggregate scalars
recomputed by calculateTotal. -/
structure MModelState where
  names : List String
  entries : List (String × MEntry)
  busy : Bool := false
  unused_apps_count : Int := 0
  total_cache_size : Int := 0
  total_config_size : Int := 0
  total_localdata_size : Int := 0
  unused_config_size : Int := 0
  unused_cache_size : Int := 0
  unused_localdata_size : Int := 0
deriving DecidableEq, Repr

/-- Notifications emitted by the model, in emission order: busyChanged from
setBusy, deletionError per failed path, row removal (the begin and end
bracket of beginRemoveRows and endRemoveRows), dataChanged with the changed
roles, totalChanged from calculateTotal and dataDeleted with the reclaimed
byte count. -/
inductive MSignal where
  | busyChanged
  | deletionError (path : String)
  | rowsRemoved (row : Int)
  | dataChanged (row : Int) (roles : List Int)
  | totalChanged
  | dataDeleted (bytes : Int)
deriving DecidableEq, Repr

/-- Accumulator of MModel calculateTotal. -/
structure Totals where
  unused_apps_count : Int
  total_cache_size : Int
  total_config_size : Int
  total_localdata_size : Int
  unused_config_size : Int
  unused_cache_size : Int
  unused_localdata_size : Int
deriving DecidableEq, Repr

/-- The loop of MModel calculateTotal lines 406 to 418, translated exactly as
written: each entry adds its config size to the local-data total and its
local-data size to the config total, and a not-installed entry additionally
bumps the unused count and the three unused sums, which use the
straightforward field mapping. -/
def calcTotalsLoop : List (String × MEntry) → Totals → Totals
  | [], acc => acc
  | (_, e) :: rest, acc =>
    let acc1 := { acc with
      total_localdata_size := acc.total_localdata_size + e.config_size,
      total_cache_size := acc.total_cache_size + e.cache_size,
      total_config_size := acc.total_config_size + e.data_size }
    let acc2 :=
      if e.installed then acc1
      else
        { acc1 with
          unused_apps_count := acc1.unused_apps_count + 1,
          unused_config_size := acc1.unused_config_size + e.config_size,
          unused_cache_size := acc1.unused_cache_size + e.cache_size,
          unused_localdata_size := acc1.unused_localdata_size + e.data_size }
    calcTotalsLoop rest acc2

/-- MModel calculateTotal lines 397 to 420: reset the seven aggregates to
zero, run the accumulation loop over all entries, and emit totalChanged. -/
def MModel.calculateTotal (s : MModelState) : MModelState × List MSignal :=
  let t := calcTotalsLoop s.entries ⟨0, 0, 0, 0, 0, 0, 0⟩
  ({ s with
      unused_apps_count := t.unused_apps_count,
      total_cache_size := t.total_cache_size,
      total_config_size := t.total_config_size,
      total_localdata_size := t.total_localdata_size,
      unused_config_size := t.unused_config_size,
      unused_cache_size := t.unused_cache_size,
      unused_localdata_size := t.unused_localdata_size },
    [MSignal.totalChanged])

/-- MModel deleteDataImpl lines 319 to 352: an unknown name is logged and
ignored before the busy flag is touched; otherwise the entry is cleared,
then either pruned from the name list and the map when it no longer exists,
with a row-removal notification, or updated in place with a dataChanged
notification, and when bytes were deleted the totals are recomputed and
dataDeleted is emitted. -/
def MModel.deleteDataImpl (fs : FS) (s : MModelState) (name : String)
    (types : DataTypes) : FS × MModelState × List MSignal :=
  match mapLookup s.entries name with
  | none => (fs, s, [])
  | some e =>
    let s1 : MModelState := { s with busy := true }
    let st := MModel.clearEntry fs e types
    let row := idxOf s1.names name
    let errSigs := st.errors.map MSignal.deletionError
    let step :=
      if !st.entry.existsb then
        ({ s1 with names := s1.names.erase name,
                   entries := mapRemove s1.entries name },
          [MSignal.rowsRemoved row])
      else
        ({ s1 with entries := mapInsert s1.entries name st.entry },
          [MSignal.dataChanged row st.changed])
    let tot :=
      if 0 < st.deleted then
        let c := MModel.calculateTotal step.1
        (c.1, c.2 ++ [MSignal.dataDeleted st.deleted])
      else (step.1, [])
    (st.fs, { tot.1 with busy := false },
      [MSignal.busyChanged] ++ errSigs ++ step.2 ++ tot.2 ++ [MSignal.busyChanged])

/-- The iteration of MModel deleteUnusedDataImpl lines 359 to 386 over the
entry map: installed entries are passed over untouched; every other entry is
cleared and then either erased from the map and the name list with a
row-removal notification, or kept with its updated sizes and a dataChanged
notification. Returns the filesystem, the surviving entries in order, the
updated name list, the accumulated deleted bytes and the emitted signals. -/
def MModel.dudLoop (types : DataTypes) (fs : FS) :
    List (String × MEntry) → List String →
    FS × List (String × MEntry) × List String × Int × List MSignal
  | [], names => (fs, [], names, 0, [])
  | (k, e) :: rest, names =>
    if e.installed then
      let r := MModel.dudLoop types fs rest names
      (r.1, (k, e) :: r.2.1, r.2.2.1, r.2.2.2.1, r.2.2.2.2)
    else
      let st := MModel.clearEntry fs e types
      let row := idxOf names k
      let errSigs := st.errors.map MSignal.deletionError
      if !st.entry.existsb then
        let r := MModel.dudLoop types st.fs rest (names.erase k)
        (r.1, r.2.1, r.2.2.1, st.deleted + r.2.2.2.1,
          errSigs ++ [MSignal.rowsRemoved row] ++ r.2.2.2.2)
      else
        let r := MModel.dudLoop types st.fs rest names
        (r.1, (k, st.entry) :: r.2.1, r.2.2.1, st.deleted + r.2.2.2.1,
          errSigs ++ [MSignal.dataChanged row st.changed] ++ r.2.2.2.2)

/-- MModel deleteUnusedDataImpl lines 354 to 395: set the busy flag, run the
clearing iteration over the whole map, recompute the totals and emit
dataDeleted when bytes were deleted, and clear the busy flag. -/
def MModel.deleteUnusedDataImpl (fs : FS) (s : MModelState)
    (types : DataTypes) : FS × MModelState × List MSignal :=
  let s1 : MModelState := { s with busy := true }
  let r := MModel.dudLoop types fs s1.entries s1.names
  let s2 := { s1 with entries := r.2.1, names := r.2.2.1 }
  let deleted := r.2.2.2.1
  let tot :=
    if 0 < deleted then
      let c := MModel.calculateTotal s2
      (c.1, c.2 ++ [MSignal.dataDeleted deleted])
    else (s2, [])
  (r.1, { tot.1 with busy := false },
    [MSignal.busyChanged] ++ r.2.2.2.2 ++ tot.2 ++ [MSignal.busyChanged])

/-- Model of QModelIndex as far as MModel uses it: a validity flag and a row
number (a valid index row is nonnegative). -/
structure MIndex where
  valid : Bool
  row : Nat
deriving DecidableEq, Repr

/-- Model of the QVariant values returned by MModel data. The invalid
QVariant is Option.none. -/
inductive MValue where
  | str (s : String)
  | bool (b : Bool)
  | int (i : Int)
deriving DecidableEq, Repr

/-- MModel rowCount lines 422 to 425: the size of the name list at the root
index, and 0 for any valid parent index. -/
def MModel.rowCount (s : MModelState) (parent : MIndex) : Int :=
  if !parent.valid then (s.names.length : Int) else 0

/-- MModel data lines 427 to 460: a null variant for an invalid index;
otherwise the name at the row and its record (the access of a row beyond
the name list is undefined in the source and is totalised here with
defaults; no theorem uses that branch), then the switch over the roles,
falling through to a null variant for any other role. -/
def MModel.data (s : MModelState) (index : MIndex) (role : Int) : Option MValue :=
  if !index.valid then none
  else
    let name := (s.names.get? index.row).getD ""
    let entry := (mapLookup s.entries name).getD {}
    if role = NameRole then some (MValue.str name)
    else if role = TitleRole then
      some (MValue.str (if entry.title.isEmpty then name else entry.title))
    else if role = IconRole then some (MValue.str entry.icon)
    else if role = InstalledRole then some (MValue.bool entry.installed)
    else if role = ConfigSizeRole then some (MValue.int entry.config_size)
    else if role = CacheSizeRole then some (MValue.int entry.cache_size)
    else if role = LocalDataSizeRole then some (MValue.int entry.data_size)
    else if role = SortRole then
      some (MValue.str ((if entry.installed then "0" else "1") ++
        (if entry.title.isEmpty then name else entry.title)))
    else none

/-- The roles handled by the switch of MModel data. -/
def dataRoles : List Int :=
  [NameRole, TitleRole, IconRole, InstalledRole, ConfigSizeRole,
   CacheSizeRole, LocalDataSizeRole, SortRole]

/-- Sum of the cached config sizes over the rows of the registry, the
reference value the spec gives for totalConfigSize. -/
def configSum (l : List (String × MEntry)) : Int :=
  (l.map (fun kv => kv.2.config_size)).sum

/-- Sum of the cached cache sizes over the rows of the registry. -/
def cacheSum (l : List (String × MEntry)) : Int :=
  (l.map (fun kv => kv.2.cache_size)).sum

/-- Sum of the cached local-data sizes over the rows of the registry. -/
def dataSum (l : List (String × MEntry)) : Int :=
  (l.map (fun kv => kv.2.data_size)).sum

/-- Number of rows whose installed field is false. -/
def unusedCount (l : List (String × MEntry)) : Int :=
  ((l.filter (fun kv => !kv.2.installed)).length : Int)

/-- A record with all three categories empty in the sense of spec section 3:
no recorded paths and cached size zero in every category. -/
def MEntry.allEmpty (e : MEntry) : Bool :=
  e.config_paths.isEmpty && e.cache_paths.isEmpty && e.data_paths.isEmpty &&
  e.config_size == 0 && e.cache_size == 0 && e.data_size == 0

/-- An empty filesystem: no directories, no files. -/
def fs0 : FS :=
  ⟨fun _ => false, fun _ => false, fun _ => 0, fun _ => 0,
   fun _ => false, fun _ => false⟩

/-- The flag set requesting only the config category. -/
def tCfgOnly : DataTypes := ⟨true, false, false⟩

/-- The flag set requesting only the cache category. -/
def tCacheOnly : DataTypes := ⟨false, true, false⟩

/-- The flag set requesting all three categories. -/
def tAll : DataTypes := ⟨true, true, true⟩

/-- A filesystem with two config directories of an app: directory a of 10
bytes that can be removed and directory b of 5 bytes whose removal fails. -/
def fsCex2 : FS :=
  { isDir := fun p => p == "a" || p == "b",
    isFile := fun _ => false,
    dirSize := fun p => if p == "a" then 10 else if p == "b" then 5 else 0,
    fileSize := fun _ => 0,
    dirRemoveOk := fun p => p == "a",
    fileRemoveOk := fun _ => false }

/-- A record holding the two config directories of fsCex2, with the cached
size computed from them. -/
def eCex2 : MEntry := { config_paths := ["a", "b"], config_size := 15 }

/-- A filesystem with a single removable config directory a of 10 bytes. -/
def fsCex3 : FS :=
  { isDir := fun p => p == "a",
    isFile := fun _ => false,
    dirSize := fun p => if p == "a" then 10 else 0,
    fileSize := fun _ => 0,
    dirRemoveOk := fun p => p == "a",
    fileRemoveOk := fun _ => false }

/-- A record holding the single config directory of fsCex3. -/
def eCex3 : MEntry := { config_paths := ["a"], config_size := 10 }

/-- A record as built by the known-apps phase: one existing config directory
k1 of 10 bytes. -/
def entMergeK : MEntry := { config_paths := ["k1"], config_size := 10 }

/-- The name-to-record map holding entMergeK under the name hx before the
discovery loop reaches the config root. -/
def entriesMerge : List (String × MEntry) := [("hx", entMergeK)]

/-- A filesystem where the known config directory k1 (10 bytes) and the
discovered config directory c2x (5 bytes) are both present. -/
def fsMerge : FS :=
  { isDir := fun p => p == "k1" || p == "c2x",
    isFile := fun _ => false,
    dirSize := fun p => if p == "k1" then 10 else if p == "c2x" then 5 else 0,
    fileSize := fun _ => 0,
    dirRemoveOk := fun _ => false,
    fileRemoveOk := fun _ => false }

/-- A record with 1 byte of config data and 2 bytes of local data. -/
def entA1 : MEntry :=
  { config_paths := ["pa"], data_paths := ["pd"], config_size := 1, data_size := 2 }

/-- A record with 5 bytes of cache data. -/
def entB1 : MEntry := { cache_paths := ["pb"], cache_size := 5 }

/-- A filesystem where only the cache directory pb of entB1 is present, 5
bytes and removable. -/
def fsC1 : FS :=
  { isDir := fun p => p == "pb",
    isFile := fun _ => false,
    dirSize := fun p => if p == "pb" then 5 else 0,
    fileSize := fun _ => 0,
    dirRemoveOk := fun p => p == "pb",
    fileRemoveOk := fun _ => false }

/-- A registry holding entA1 and entB1. -/
def stC1 : MModelState :=
  { names := ["aaa", "bbb"], entries := [("aaa", entA1), ("bbb", entB1)] }

/-- A filesystem with directories wa of 3 bytes, wb of 5 bytes and wc of 7
bytes, of which wa and wc can be removed and the removal of wb fails. -/
def fsW5 : FS :=
  { isDir := fun p => p == "wa" || p == "wb" || p == "wc",
    isFile := fun _ => false,
    dirSize := fun p =>
      if p == "wa" then 3 else if p == "wb" then 5 else if p == "wc" then 7 else 0,
    fileSize := fun _ => 0,
    dirRemoveOk := fun p => p == "wa" || p == "wc",
    fileRemoveOk := fun _ => false }

/-- A record whose only data is the removable cache directory qb. -/
def entW6 : MEntry := { cache_paths := ["qb"], cache_size := 5 }

/-- A filesystem where the cache directory qb is present, 5 bytes and
removable. -/
def fsW6 : FS :=
  { isDir := fun p => p == "qb",
    isFile := fun _ => false,
    dirSize := fun p => if p == "qb" then 5 else 0,
    fileSize := fun _ => 0,
    dirRemoveOk := fun p => p == "qb",
    fileRemoveOk := fun _ => false }

/-- A registry holding entA1 and entW6. -/
def stW6 : MModelState :=
  { names := ["aaa", "qqq"], entries := [("aaa", entA1), ("qqq", entW6)] }

/-- An installed record with 4 bytes of config data. -/
def entW8a : MEntry :=
  { config_paths := ["ra"], config_size := 4, installed := true }

/-- A not-installed record with 6 bytes of cache data. -/
def entW8b : MEntry := { cache_paths := ["rb"], cache_size := 6 }

/-- A filesystem where the directories ra and rb are present and removable. -/
def fsW8 : FS :=
  { isDir := fun p => p == "ra" || p == "rb",
    isFile := fun _ => false,
    dirSize := fun p => if p == "ra" then 4 else if p == "rb" then 6 else 0,
    fileSize := fun _ => 0,
    dirRemoveOk := fun p => p == "ra" || p == "rb",
    fileRemoveOk := fun _ => false }

/-- A registry holding the installed entW8a and the not-installed entW8b. -/
def stW8 : MModelState :=
  { names := ["iaa", "ubb"], entries := [("iaa", entW8a), ("ubb", entW8b)] }

/-- The registry before the first rescan: no names, no entries. -/
def stEmpty : MModelState := { names := [], entries := [] }

/-- A registry with a single installed record. -/
def stW10 : MModelState := { names := ["waa"], entries := [("waa", entW8a)] }

/-- A clearEntry state about to run the cache block on entW6 over fsW6, with
the config role already marked changed. -/
def stCl3a : ClearState := ⟨fsW6, entW6, 0, [ConfigSizeRole], []⟩

/-- A record whose only data is the removable directory qb recorded as local
data. -/
def entCl3 : MEntry := { data_paths := ["qb"], data_size := 5 }

/-- A clearEntry state about to run the local-data block on entCl3 over
fsW6. -/
def stCl3b : ClearState := ⟨fsW6, entCl3, 0, [], []⟩

/-- C9: for every path that is neither a directory nor a regular file,
getSize returns 0; as getSize is a pure function of the filesystem and the
path, repeated calls on the same missing path return 0 each time. -/
theorem c9_missing_path_size_zero (fs : FS) (p : String)
    (hd : fs.isDir p = false) (hf : fs.isFile p = false) :
    getSize fs p = 0 := by
  simp [getSize, hd, hf]

theorem c9_missing_path_size_zero_witness : getSize fs0 "zz" = 0 :=
  c9_missing_path_size_zero fs0 "zz" rfl rfl

/-- C4: a batch containing an empty-string path is aborted before the
deletion loop: removePaths returns 0 reclaimed bytes, removes no path,
emits no deletionError and leaves the filesystem unchanged, regardless of
the other paths in the batch. -/
theorem c4_empty_path_aborts_batch (fs : FS) (paths : List String) (p : String)
    (hp : p ∈ paths) (he : p.isEmpty = true) :
    MModel.removePaths fs paths = ⟨fs, 0, [], []⟩ := by
  have h : paths.any (fun q => q.isEmpty) = true := List.any_eq_true.mpr ⟨p, hp, he⟩
  simp [MModel.removePaths, h]

theorem c4_empty_path_aborts_batch_witness :
    MModel.removePaths fsW5 ["wa", "", "wc"] = ⟨fsW5, 0, [], []⟩ :=
  c4_empty_path_aborts_batch fsW5 ["wa", "", "wc"] "" (by decide) rfl

/-- C7: when the name is absent from the name-to-record map, deleteDataImpl
returns before touching anything: the filesystem and the whole model state
are unchanged and no signal is emitted. -/
theorem c7_unknown_name_noop (fs : FS) (s : MModelState) (name : String)
    (types : DataTypes) (h : mapLookup s.entries name = none) :
    MModel.deleteDataImpl fs s name types = (fs, s, []) := by
  simp [MModel.deleteDataImpl, h]

theorem c7_unknown_name_noop_witness :
    MModel.deleteDataImpl fs0 stEmpty "nn" tAll = (fs0, stEmpty, []) :=
  c7_unknown_name_noop fs0 stEmpty "nn" tAll rfl

/-- C10: the row-read interface is total and safe: data returns the null
variant for every invalid index and, for a valid in-range index, for every
role outside the switch of defined roles; rowCount returns 0 for every
valid parent index. -/
theorem c10_read_interface_total (s : MModelState) (index : MIndex)
    (role : Int) (parent : MIndex) :
    (index.valid = false → MModel.data s index role = none) ∧
    (index.valid = true → index.row < s.names.length → role ∉ dataRoles →
      MModel.data s index role = none) ∧
    (parent.valid = true → MModel.rowCount s parent = 0) := by
  refine ⟨?_, ?_, ?_⟩
  · intro h
    simp [MModel.data, h]
  · intro hv _ hr
    simp only [dataRoles, List.mem_cons, List.not_mem_nil, or_false, not_or] at hr
    obtain ⟨h1, h2, h3, h4, h5, h6, h7, h8⟩ := hr
    simp [MModel.data, hv, h1, h2, h3, h4, h5, h6, h7, h8]
  · intro h
    simp [MModel.rowCount, h]

theorem c10_read_interface_total_witness :
    MModel.data stW10 ⟨false, 0⟩ 300 = none ∧
    MModel.data stW10 ⟨true, 0⟩ 300 = none ∧
    MModel.rowCount stW10 ⟨true, 0⟩ = 0 :=
  ⟨(c10_read_interface_total stW10 ⟨false, 0⟩ 300 ⟨true, 0⟩).1 rfl,
   (c10_read_interface_total stW10 ⟨true, 0⟩ 300 ⟨true, 0⟩).2.1 rfl (by decide)
     (by decide),
   (c10_read_interface_total stW10 ⟨true, 0⟩ 300 ⟨true, 0⟩).2.2 rfl⟩

theorem getSize_agrees {fs fs' : FS} {p : String} (h : agreesOn fs fs' p) :
    getSize fs' p = getSize fs p := by
  obtain ⟨h1, h2, h3, h4, _, _⟩ := h
  simp [getSize, h1, h2, h3, h4]

theorem removeOk_agrees {fs fs' : FS} {p : String} (h : agreesOn fs fs' p) :
    removeOk fs' p = removeOk fs p := by
  obtain ⟨h1, h2, _, _, h5, h6⟩ := h
  simp [removeOk, h1, h2, h5, h6]

theorem agreesOn_refl (fs : FS) (p : String) : agreesOn fs fs p :=
  ⟨rfl, rfl, rfl, rfl, rfl, rfl⟩

theorem agreesOn_maskFS {fs fs' : FS} {p : String} (dead : List String)
    (h : agreesOn fs fs' p) (hd : dead.contains p = false) :
    agreesOn fs (maskFS fs' dead) p := by
  obtain ⟨h1, h2, h3, h4, h5, h6⟩ := h
  have hmem : p ∉ dead := by simpa using hd
  exact ⟨by simp [maskFS, h1, hmem], by simp [maskFS, h2, hmem], h3, h4, h5, h6⟩

/-- Characterisation of the deletion loop on a batch of distinct paths over
any filesystem that agrees with fs on all of them: the removed paths are
exactly those on which removal succeeds, the deletionError emissions are
exactly the paths on which it fails, in batch order, and the reclaimed
bytes are the sum of the pre-measured sizes of the removed paths. -/
theorem removeLoop_spec (paths : List String) (fs : FS) :
    ∀ fs' : FS, (∀ p ∈ paths, agreesOn fs fs' p) → paths.Nodup →
    (MModel.removeLoop fs' paths).removed =
      paths.filter (fun p => removeOk fs p) ∧
    (MModel.removeLoop fs' paths).errors =
      paths.filter (fun p => !(removeOk fs p)) ∧
    (MModel.removeLoop fs' paths).reclaimed =
      ((paths.filter (fun p => removeOk fs p)).map (fun p => getSize fs p)).sum := by
  induction paths with
  | nil =>
    intro fs' _ _
    simp [MModel.removeLoop]
  | cons p rest ih =>
    intro fs' hagree hnd
    have hp : agreesOn fs fs' p := hagree p (List.mem_cons_self p rest)
    have hrest : ∀ q ∈ rest, agreesOn fs fs' q :=
      fun q hq => hagree q (List.mem_cons_of_mem p hq)
    have hpnotin : p ∉ rest := (List.nodup_cons.mp hnd).1
    have hnd' : rest.Nodup := (List.nodup_cons.mp hnd).2
    by_cases hok : removeOk fs p = true
    · have magree : ∀ q ∈ rest, agreesOn fs (maskFS fs' [p]) q := by
        intro q hq
        refine agreesOn_maskFS [p] (hrest q hq) ?_
        have hqp : q ≠ p := fun h => hpnotin (h ▸ hq)
        simpa using hqp
      have h := ih (maskFS fs' [p]) magree hnd'
      simp only [MModel.removeLoop, removeOk_agrees hp, hok, if_true,
        List.filter_cons, Bool.not_true, Bool.false_eq_true, if_false]
      exact ⟨by simp [h.1], by simp [h.2.1], by simp [h.2.2, getSize_agrees hp]⟩
    · have hok' : removeOk fs p = false := by
        cases h : removeOk fs p
        · rfl
        · exact absurd h hok
      have h := ih fs' hrest hnd'
      simp only [MModel.removeLoop, removeOk_agrees hp, hok', Bool.false_eq_true,
        if_false, List.filter_cons, Bool.not_false, if_true]
      exact ⟨by simp [h.1], by simp [h.2.1], by simp [h.2.2]⟩

/-- C5: on a batch of distinct non-empty paths, removePaths processes every
path independently: it removes exactly the paths on which deletion
succeeds, emits one deletionError per failed path, in order, a failed path
does not stop the processing of the later paths of the batch, and the
returned byte count is the sum of the pre-measured sizes of exactly the
successfully removed paths. -/
theorem c5_per_path_independence (fs : FS) (paths : List String)
    (hne : ∀ p ∈ paths, p.isEmpty = false) (hnd : paths.Nodup) :
    (MModel.removePaths fs paths).removed =
      paths.filter (fun p => removeOk fs p) ∧
    (MModel.removePaths fs paths).errors =
      paths.filter (fun p => !(removeOk fs p)) ∧
    (MModel.removePaths fs paths).reclaimed =
      ((paths.filter (fun p => removeOk fs p)).map (fun p => getSize fs p)).sum := by
  have hany : paths.any (fun p => p.isEmpty) = false := by
    rw [List.any_eq_false]
    intro x hx
    simp [hne x hx]
  rw [MModel.removePaths, if_neg (by simp [hany])]
  exact removeLoop_spec paths fs fs (fun p _ => agreesOn_refl fs p) hnd

theorem c5_per_path_independence_witness :
    (MModel.removePaths fsW5 ["wa", "wb", "wc"]).removed = ["wa", "wc"] ∧
    (MModel.removePaths fsW5 ["wa", "wb", "wc"]).errors = ["wb"] ∧
    (MModel.removePaths fsW5 ["wa", "wb", "wc"]).reclaimed = 10 := by
  have h := c5_per_path_independence fsW5 ["wa", "wb", "wc"] (by decide) (by decide)
  exact ⟨h.1.trans (by decide), h.2.1.trans (by decide), h.2.2.trans (by decide)⟩

/-- C1: counterexample to the aggregate mapping. After deleting the cache
data of the record bbb, the remaining registry has config sizes summing to
1 and local-data sizes summing to 2, yet calculateTotal leaves
totalConfigSize at 2 and totalLocaldataSize at 1: the loop adds the config
size of each entry into the local-data total and the local-data size into
the config total (mmodel.cpp lines 408 and 410), so totalConfigSize is not
the sum of configSize over the rows. -/
theorem c1_totals_swapped :
    (MModel.deleteDataImpl fsC1 stC1 "bbb" tCacheOnly).2.1.total_config_size = 2 ∧
    configSum (MModel.deleteDataImpl fsC1 stC1 "bbb" tCacheOnly).2.1.entries = 1 ∧
    (MModel.deleteDataImpl fsC1 stC1 "bbb" tCacheOnly).2.1.total_localdata_size = 1 ∧
    dataSum (MModel.deleteDataImpl fsC1 stC1 "bbb" tCacheOnly).2.1.entries = 2 ∧
    (MModel.deleteDataImpl fsC1 stC1 "bbb" tCacheOnly).2.1.total_config_size ≠
      configSum (MModel.deleteDataImpl fsC1 stC1 "bbb" tCacheOnly).2.1.entries := by
  decide

/-- C2: counterexample, refuting the claim at both program points it cites.
Deletion: clearing the config category of a record whose path list holds
one removable directory of 10 bytes and one directory of 5 bytes whose
removal fails zeroes the cached config size (10 bytes were reclaimed) while
both paths stay recorded and the failed directory still holds 5 bytes, so
the cached size (0) differs from the sum over the recorded paths (5).
Rescan merge: merging the discovered 5-byte config directory c2x into the
existing record hx, which already holds the known 10-byte config directory
k1, appends the path but overwrites the cached size with 5, so the cached
size (5) differs from the sum over the recorded paths (15). -/
theorem c2_counterexample :
    ¬ ((MModel.clearEntry fsCex2 eCex2 tCfgOnly).entry.config_size =
       pathsSizeSum (MModel.clearEntry fsCex2 eCex2 tCfgOnly).fs
         (MModel.clearEntry fsCex2 eCex2 tCfgOnly).entry.config_paths) ∧
    ¬ (((mapLookup (MModel.resetMergeStep fsMerge 0 "c2x" "hx" ["hx"]
          entriesMerge).2 "hx").getD {}).config_size =
       pathsSizeSum fsMerge
         ((mapLookup (MModel.resetMergeStep fsMerge 0 "c2x" "hx" ["hx"]
           entriesMerge).2 "hx").getD {}).config_paths) := by
  decide

/-- C3: counterexample. A fully successful removal of the config category
zeroes the cached size but does not empty the path set: the recorded config
paths after clearEntry are unchanged and nonempty. -/
theorem c3_counterexample :
    0 < (MModel.removePaths fsCex3 eCex3.config_paths).reclaimed ∧
    (MModel.clearEntry fsCex3 eCex3 tCfgOnly).entry.config_size = 0 ∧
    (MModel.clearEntry fsCex3 eCex3 tCfgOnly).entry.config_paths ≠ [] := by
  decide

theorem getSize_eq_zero_of_missing {fs : FS} {p : String}
    (h1 : fs.isDir p = false) (h2 : fs.isFile p = false) : getSize fs p = 0 := by
  simp [getSize, h1, h2]

theorem pathsSizeSum_eq_zero {fs : FS} {l : List String}
    (h : ∀ p ∈ l, getSize fs p = 0) : pathsSizeSum fs l = 0 := by
  refine List.sum_eq_zero ?_
  intro x hx
  obtain ⟨p, hp, rfl⟩ := List.mem_map.mp hx
  exact h p hp

theorem removeLoop_preserves_dead (l : List String) :
    ∀ (fs : FS) (p : String), fs.isDir p = false → fs.isFile p = false →
    (MModel.removeLoop fs l).fs.isDir p = false ∧
    (MModel.removeLoop fs l).fs.isFile p = false := by
  induction l with
  | nil =>
    intro fs p h1 h2
    exact ⟨h1, h2⟩
  | cons q rest ih =>
    intro fs p h1 h2
    cases hok : removeOk fs q with
    | true =>
      simp only [MModel.removeLoop, hok, if_true]
      exact ih (maskFS fs [q]) p (by simp [maskFS, h1]) (by simp [maskFS, h2])
    | false =>
      simp only [MModel.removeLoop, hok, Bool.false_eq_true, if_false]
      exact ih fs p h1 h2

theorem removePaths_preserves_dead (fs : FS) (l : List String) (p : String)
    (h1 : fs.isDir p = false) (h2 : fs.isFile p = false) :
    (MModel.removePaths fs l).fs.isDir p = false ∧
    (MModel.removePaths fs l).fs.isFile p = false := by
  rw [MModel.removePaths]
  split
  · exact ⟨h1, h2⟩
  · exact removeLoop_preserves_dead l fs p h1 h2

theorem removeLoop_all_dead (l : List String) :
    ∀ fs : FS, (MModel.removeLoop fs l).errors = [] →
    ∀ p ∈ l, (MModel.removeLoop fs l).fs.isDir p = false ∧
      (MModel.removeLoop fs l).fs.isFile p = false := by
  induction l with
  | nil =>
    intro fs _ p hp
    simp at hp
  | cons q rest ih =>
    intro fs herr p hp
    cases hok : removeOk fs q with
    | true =>
      have herr' : (MModel.removeLoop (maskFS fs [q]) rest).errors = [] := by
        simpa [MModel.removeLoop, hok] using herr
      simp only [MModel.removeLoop, hok, if_true]
      rcases List.mem_cons.mp hp with hpq | hpr
      · subst hpq
        exact removeLoop_preserves_dead rest (maskFS fs [p]) p
          (by simp [maskFS]) (by simp [maskFS])
      · exact ih (maskFS fs [q]) herr' p hpr
    | false =>
      exfalso
      have hc : (MModel.removeLoop fs (q :: rest)).errors =
          q :: (MModel.removeLoop fs rest).errors := by
        simp [MModel.removeLoop, hok]
      rw [hc] at herr
      exact List.cons_ne_nil _ _ herr

theorem clearStepConfig_spec (types : DataTypes) (st : ClearState)
    (hflag : types.config = true) (hpos : 0 < st.entry.config_size)
    (hrec : 0 < (MModel.removePaths st.fs st.entry.config_paths).reclaimed) :
    MModel.clearStepConfig types st =
      ⟨(MModel.removePaths st.fs st.entry.config_paths).fs,
       { st.entry with config_size := 0 },
       st.deleted + (MModel.removePaths st.fs st.entry.config_paths).reclaimed,
       st.changed ++ [ConfigSizeRole],
       st.errors ++ (MModel.removePaths st.fs st.entry.config_paths).errors⟩ := by
  simp only [MModel.clearStepConfig, hflag, hpos, hrec, if_true, and_true, true_and]

theorem clearStepCache_spec (types : DataTypes) (st : ClearState)
    (hflag : types.cache = true) (hpos : 0 < st.entry.cache_size)
    (hrec : 0 < (MModel.removePaths st.fs st.entry.cache_paths).reclaimed) :
    MModel.clearStepCache types st =
      ⟨(MModel.removePaths st.fs st.entry.cache_paths).fs,
       { st.entry with cache_size := 0 },
       st.deleted + (MModel.removePaths st.fs st.entry.cache_paths).reclaimed,
       st.changed ++ [CacheSizeRole],
       st.errors ++ (MModel.removePaths st.fs st.entry.cache_paths).errors⟩ := by
  simp only [MModel.clearStepCache, hflag, hpos, hrec, if_true, and_true, true_and]

theorem clearStepData_spec (types : DataTypes) (st : ClearState)
    (hflag : types.localData = true) (hpos : 0 < st.entry.data_size)
    (hrec : 0 < (MModel.removePaths st.fs st.entry.data_paths).reclaimed) :
    MModel.clearStepData types st =
      ⟨(MModel.removePaths st.fs st.entry.data_paths).fs,
       { st.entry with data_size := 0 },
       st.deleted + (MModel.removePaths st.fs st.entry.data_paths).reclaimed,
       st.changed ++ [LocalDataSizeRole],
       st.errors ++ (MModel.removePaths st.fs st.entry.data_paths).errors⟩ := by
  simp only [MModel.clearStepData, hflag, hpos, hrec, if_true, and_true, true_and]

theorem clearStepConfig_entry (types : DataTypes) (st : ClearState) :
    (MModel.clearStepConfig types st).entry.config_paths = st.entry.config_paths ∧
    (MModel.clearStepConfig types st).entry.cache_paths = st.entry.cache_paths ∧
    (MModel.clearStepConfig types st).entry.data_paths = st.entry.data_paths ∧
    (MModel.clearStepConfig types st).entry.cache_size = st.entry.cache_size ∧
    (MModel.clearStepConfig types st).entry.data_size = st.entry.data_size ∧
    (MModel.clearStepConfig types st).entry.installed = st.entry.installed ∧
    (MModel.clearStepConfig types st).entry.title = st.entry.title ∧
    (MModel.clearStepConfig types st).entry.icon = st.entry.icon := by
  unfold MModel.clearStepConfig
  split
  · dsimp only
    split <;> simp
  · simp

theorem clearStepCache_entry (types : DataTypes) (st : ClearState) :
    (MModel.clearStepCache types st).entry.config_paths = st.entry.config_paths ∧
    (MModel.clearStepCache types st).entry.cache_paths = st.entry.cache_paths ∧
    (MModel.clearStepCache types st).entry.data_paths = st.entry.data_paths ∧
    (MModel.clearStepCache types st).entry.config_size = st.entry.config_size ∧
    (MModel.clearStepCache types st).entry.data_size = st.entry.data_size ∧
    (MModel.clearStepCache types st).entry.installed = st.entry.installed ∧
    (MModel.clearStepCache types st).entry.title = st.entry.title ∧
    (MModel.clearStepCache types st).entry.icon = st.entry.icon := by
  unfold MModel.clearStepCache
  split
  · dsimp only
    split <;> simp
  · simp

theorem clearStepData_entry (types : DataTypes) (st : ClearState) :
    (MModel.clearStepData types st).entry.config_paths = st.entry.config_paths ∧
    (MModel.clearStepData types st).entry.cache_paths = st.entry.cache_paths ∧
    (MModel.clearStepData types st).entry.data_paths = st.entry.data_paths ∧
    (MModel.clearStepData types st).entry.config_size = st.entry.config_size ∧
    (MModel.clearStepData types st).entry.cache_size = st.entry.cache_size ∧
    (MModel.clearStepData types st).entry.installed = st.entry.installed ∧
    (MModel.clearStepData types st).entry.title = st.entry.title ∧
    (MModel.clearStepData types st).entry.icon = st.entry.icon := by
  unfold MModel.clearStepData
  split
  · dsimp only
    split <;> simp
  · simp

theorem clearStepCache_preserves_dead (types : DataTypes) (st : ClearState)
    (p : String) (h1 : st.fs.isDir p = false) (h2 : st.fs.isFile p = false) :
    (MModel.clearStepCache types st).fs.isDir p = false ∧
    (MModel.clearStepCache types st).fs.isFile p = false := by
  unfold MModel.clearStepCache
  split
  · dsimp only
    split <;> exact removePaths_preserves_dead st.fs _ p h1 h2
  · exact ⟨h1, h2⟩

theorem clearStepData_preserves_dead (types : DataTypes) (st : ClearState)
    (p : String) (h1 : st.fs.isDir p = false) (h2 : st.fs.isFile p = false) :
    (MModel.clearStepData types st).fs.isDir p = false ∧
    (MModel.clearStepData types st).fs.isFile p = false := by
  unfold MModel.clearStepData
  split
  · dsimp only
    split <;> exact removePaths_preserves_dead st.fs _ p h1 h2
  · exact ⟨h1, h2⟩

theorem clearStepCache_changed_sub (types : DataTypes) (st : ClearState) :
    ∀ role ∈ st.changed, role ∈ (MModel.clearStepCache types st).changed := by
  intro role hr
  unfold MModel.clearStepCache
  split
  · dsimp only
    split
    · exact List.mem_append_left _ hr
    · exact hr
  · exact hr

theorem clearStepData_changed_sub (types : DataTypes) (st : ClearState) :
    ∀ role ∈ st.changed, role ∈ (MModel.clearStepData types st).changed := by
  intro role hr
  unfold MModel.clearStepData
  split
  · dsimp only
    split
    · exact List.mem_append_left _ hr
    · exact hr
  · exact hr

theorem mapLookup_mem_keys {l : List (String × MEntry)} {k : String} {e : MEntry}
    (h : mapLookup l k = some e) : k ∈ l.map Prod.fst := by
  induction l with
  | nil => simp [mapLookup] at h
  | cons kv rest ih =>
    obtain ⟨k0, v0⟩ := kv
    by_cases hk : k = k0
    · simp [hk]
    · simp only [mapLookup, beq_iff_eq, if_neg hk] at h
      simp [ih h]

theorem mapInsert_lookup_self (l : List (String × MEntry)) (k : String) (v : MEntry) :
    mapLookup (mapInsert l k v) k = some v := by
  induction l with
  | nil => simp [mapInsert, mapLookup]
  | cons kv rest ih =>
    obtain ⟨k0, v0⟩ := kv
    by_cases hk : k = k0
    · simp [mapInsert, mapLookup, hk]
    · simp [mapInsert, mapLookup, hk, ih]

theorem mapInsert_lookup_ne {l : List (String × MEntry)} {k k' : String}
    (v : MEntry) (h : k' ≠ k) :
    mapLookup (mapInsert l k v) k' = mapLookup l k' := by
  induction l with
  | nil => simp [mapInsert, mapLookup, h]
  | cons kv rest ih =>
    obtain ⟨k0, v0⟩ := kv
    by_cases hk : k = k0
    · subst hk
      simp [mapInsert, mapLookup, h]
    · simp only [mapInsert, beq_iff_eq, if_neg hk]
      by_cases hk' : k' = k0
      · simp [mapLookup, hk']
      · simp [mapLookup, hk', ih]

theorem mapRemove_lookup_self {l : List (String × MEntry)} {k : String}
    (hnd : (l.map Prod.fst).Nodup) : mapLookup (mapRemove l k) k = none := by
  induction l with
  | nil => simp [mapRemove, mapLookup]
  | cons kv rest ih =>
    obtain ⟨k0, v0⟩ := kv
    have hnd' : (rest.map Prod.fst).Nodup := (List.nodup_cons.mp hnd).2
    have hk0 : k0 ∉ rest.map Prod.fst := (List.nodup_cons.mp hnd).1
    by_cases hk : k = k0
    · subst hk
      have hr : mapRemove ((k, v0) :: rest) k = rest := by
        simp [mapRemove]
      rw [hr]
      cases hres : mapLookup rest k with
      | none => rfl
      | some e => exact absurd (mapLookup_mem_keys hres) hk0
    · simp [mapRemove, mapLookup, hk, ih hnd']

theorem mapRemove_lookup_ne {l : List (String × MEntry)} {k k' : String}
    (h : k' ≠ k) : mapLookup (mapRemove l k) k' = mapLookup l k' := by
  induction l with
  | nil => simp [mapRemove, mapLookup]
  | cons kv rest ih =>
    obtain ⟨k0, v0⟩ := kv
    by_cases hk : k = k0
    · subst hk
      simp [mapRemove, mapLookup, h]
    · simp only [mapRemove, beq_iff_eq, if_neg hk]
      by_cases hk' : k' = k0
      · simp [mapLookup, hk']
      · simp [mapLookup, hk', ih]

theorem removePaths_full_success_dead (fs : FS) (paths : List String)
    (hrec : 0 < (MModel.removePaths fs paths).reclaimed)
    (hfull : (MModel.removePaths fs paths).errors = []) :
    ∀ p ∈ paths, (MModel.removePaths fs paths).fs.isDir p = false ∧
      (MModel.removePaths fs paths).fs.isFile p = false := by
  have habort : (paths.any fun p => p.isEmpty) = false := by
    by_contra hcon
    have htrue : (paths.any fun p => p.isEmpty) = true := by
      simpa using hcon
    simp [MModel.removePaths, htrue] at hrec
  have hloop : MModel.removePaths fs paths = MModel.removeLoop fs paths := by
    rw [MModel.removePaths, if_neg (by simp [habort])]
  intro p hp
  rw [hloop] at hfull ⊢
  exact removeLoop_all_dead paths fs hfull p hp

/-- C2 amended: for every record and every category, the cached category
size equals the sum of getSize over exactly the recorded paths of the
category at the two program points the claim cites, under the conditions
the counterexample forces. Deletion: when a requested category with
positive cached size is cleared by a removePaths run that reclaims a
positive amount with no per-path failure, the cached size becomes 0, the
recorded paths are unchanged, and the sum of getSize over them in the
resulting filesystem is 0 as well (clauses one to three, one per
category; the cache and local-data clauses hold for every intermediate
clearEntry state and hence in particular for the states clearEntry feeds
them). Rescan merge: when the discovery loop merges a directory into a
record whose category had no previously recorded paths (in particular a
fresh record), the merged record satisfies the invariant for that category
(clauses four to six, one per search root). -/
theorem c2_category_size_invariant (fs : FS) (e : MEntry) (types : DataTypes) :
    (types.config = true → 0 < e.config_size →
      0 < (MModel.removePaths fs e.config_paths).reclaimed →
      (MModel.removePaths fs e.config_paths).errors = [] →
      (MModel.clearEntry fs e types).entry.config_size = 0 ∧
      (MModel.clearEntry fs e types).entry.config_paths = e.config_paths ∧
      pathsSizeSum (MModel.clearEntry fs e types).fs e.config_paths = 0) ∧
    (∀ st : ClearState, types.cache = true → 0 < st.entry.cache_size →
      0 < (MModel.removePaths st.fs st.entry.cache_paths).reclaimed →
      (MModel.removePaths st.fs st.entry.cache_paths).errors = [] →
      (MModel.clearStepData types (MModel.clearStepCache types st)).entry.cache_size
        = 0 ∧
      (MModel.clearStepData types (MModel.clearStepCache types st)).entry.cache_paths
        = st.entry.cache_paths ∧
      pathsSizeSum (MModel.clearStepData types (MModel.clearStepCache types st)).fs
        st.entry.cache_paths = 0) ∧
    (∀ st : ClearState, types.localData = true → 0 < st.entry.data_size →
      0 < (MModel.removePaths st.fs st.entry.data_paths).reclaimed →
      (MModel.removePaths st.fs st.entry.data_paths).errors = [] →
      (MModel.clearStepData types st).entry.data_size = 0 ∧
      (MModel.clearStepData types st).entry.data_paths = st.entry.data_paths ∧
      pathsSizeSum (MModel.clearStepData types st).fs st.entry.data_paths = 0) ∧
    (∀ (fs2 : FS) (dirpath dirname : String) (names : List String)
        (entries : List (String × MEntry)),
      ((mapLookup entries dirname).getD {}).config_paths = [] →
      ∃ e1, mapLookup
          (MModel.resetMergeStep fs2 0 dirpath dirname names entries).2 dirname =
          some e1 ∧
        e1.config_size = pathsSizeSum fs2 e1.config_paths) ∧
    (∀ (fs2 : FS) (dirpath dirname : String) (names : List String)
        (entries : List (String × MEntry)),
      ((mapLookup entries dirname).getD {}).cache_paths = [] →
      ∃ e1, mapLookup
          (MModel.resetMergeStep fs2 1 dirpath dirname names entries).2 dirname =
          some e1 ∧
        e1.cache_size = pathsSizeSum fs2 e1.cache_paths) ∧
    (∀ (fs2 : FS) (dirpath dirname : String) (names : List String)
        (entries : List (String × MEntry)),
      ((mapLookup entries dirname).getD {}).data_paths = [] →
      ∃ e1, mapLookup
          (MModel.resetMergeStep fs2 2 dirpath dirname names entries).2 dirname =
          some e1 ∧
        e1.data_size = pathsSizeSum fs2 e1.data_paths) := by
  refine ⟨?_, ?_, ?_, ?_, ?_, ?_⟩
  · intro hflag hpos hrec hfull
    have hst1 := clearStepConfig_spec types ⟨fs, e, 0, [], []⟩ hflag hpos hrec
    have hdead1 := removePaths_full_success_dead fs e.config_paths hrec hfull
    have hdead3 : ∀ p ∈ e.config_paths,
        (MModel.clearEntry fs e types).fs.isDir p = false ∧
        (MModel.clearEntry fs e types).fs.isFile p = false := by
      intro p hp
      unfold MModel.clearEntry
      rw [hst1]
      exact clearStepData_preserves_dead types _ p
        (clearStepCache_preserves_dead types _ p (hdead1 p hp).1 (hdead1 p hp).2).1
        (clearStepCache_preserves_dead types _ p (hdead1 p hp).1 (hdead1 p hp).2).2
    refine ⟨?_, ?_, ?_⟩
    · unfold MModel.clearEntry
      rw [hst1, (clearStepData_entry types _).2.2.2.1,
        (clearStepCache_entry types _).2.2.2.1]
    · unfold MModel.clearEntry
      rw [hst1, (clearStepData_entry types _).1, (clearStepCache_entry types _).1]
    · exact pathsSizeSum_eq_zero
        (fun p hp => getSize_eq_zero_of_missing (hdead3 p hp).1 (hdead3 p hp).2)
  · intro st hflag hpos hrec hfull
    have hst := clearStepCache_spec types st hflag hpos hrec
    have hdead1 := removePaths_full_success_dead st.fs st.entry.cache_paths hrec hfull
    refine ⟨?_, ?_, ?_⟩
    · rw [hst, (clearStepData_entry types _).2.2.2.2.1]
    · rw [hst, (clearStepData_entry types _).2.1]
    · refine pathsSizeSum_eq_zero (fun p hp => getSize_eq_zero_of_missing ?_ ?_)
      · rw [hst]
        exact (clearStepData_preserves_dead types _ p (hdead1 p hp).1
          (hdead1 p hp).2).1
      · rw [hst]
        exact (clearStepData_preserves_dead types _ p (hdead1 p hp).1
          (hdead1 p hp).2).2
  · intro st hflag hpos hrec hfull
    have hst := clearStepData_spec types st hflag hpos hrec
    have hdead1 := removePaths_full_success_dead st.fs st.entry.data_paths hrec hfull
    refine ⟨?_, ?_, ?_⟩
    · rw [hst]
    · rw [hst]
    · refine pathsSizeSum_eq_zero (fun p hp => getSize_eq_zero_of_missing ?_ ?_)
      · rw [hst]
        exact (hdead1 p hp).1
      · rw [hst]
        exact (hdead1 p hp).2
  · intro fs2 dirpath dirname names entries h
    unfold MModel.resetMergeStep
    dsimp only
    refine ⟨_, mapInsert_lookup_self _ _ _, ?_⟩
    simp [h, pathsSizeSum]
  · intro fs2 dirpath dirname names entries h
    unfold MModel.resetMergeStep
    dsimp only
    refine ⟨_, mapInsert_lookup_self _ _ _, ?_⟩
    simp [h, pathsSizeSum]
  · intro fs2 dirpath dirname names entries h
    unfold MModel.resetMergeStep
    dsimp only
    refine ⟨_, mapInsert_lookup_self _ _ _, ?_⟩
    simp [h, pathsSizeSum]

theorem c2_category_size_invariant_witness :
    ((MModel.clearEntry fsCex3 eCex3 tCfgOnly).entry.config_size = 0 ∧
     (MModel.clearEntry fsCex3 eCex3 tCfgOnly).entry.config_paths =
       eCex3.config_paths ∧
     pathsSizeSum (MModel.clearEntry fsCex3 eCex3 tCfgOnly).fs
       eCex3.config_paths = 0) ∧
    ((MModel.clearStepData tAll (MModel.clearStepCache tAll stCl3a)).entry.cache_size
       = 0 ∧
     (MModel.clearStepData tAll (MModel.clearStepCache tAll stCl3a)).entry.cache_paths
       = stCl3a.entry.cache_paths ∧
     pathsSizeSum (MModel.clearStepData tAll (MModel.clearStepCache tAll stCl3a)).fs
       stCl3a.entry.cache_paths = 0) ∧
    ((MModel.clearStepData tAll stCl3b).entry.data_size = 0 ∧
     (MModel.clearStepData tAll stCl3b).entry.data_paths =
       stCl3b.entry.data_paths ∧
     pathsSizeSum (MModel.clearStepData tAll stCl3b).fs
       stCl3b.entry.data_paths = 0) ∧
    (∃ e1, mapLookup (MModel.resetMergeStep fsMerge 0 "c2x" "hz" [] []).2 "hz" =
        some e1 ∧ e1.config_size = pathsSizeSum fsMerge e1.config_paths) ∧
    (∃ e1, mapLookup (MModel.resetMergeStep fsMerge 1 "c2x" "hz" [] []).2 "hz" =
        some e1 ∧ e1.cache_size = pathsSizeSum fsMerge e1.cache_paths) ∧
    (∃ e1, mapLookup (MModel.resetMergeStep fsMerge 2 "c2x" "hz" [] []).2 "hz" =
        some e1 ∧ e1.data_size = pathsSizeSum fsMerge e1.data_paths) :=
  ⟨(c2_category_size_invariant fsCex3 eCex3 tCfgOnly).1 rfl (by decide)
     (by decide) (by decide),
   (c2_category_size_invariant fsCex3 eCex3 tAll).2.1 stCl3a rfl (by decide)
     (by decide) (by decide),
   (c2_category_size_invariant fsCex3 eCex3 tAll).2.2.1 stCl3b rfl (by decide)
     (by decide) (by decide),
   (c2_category_size_invariant fsCex3 eCex3 tAll).2.2.2.1 fsMerge "c2x" "hz" []
     [] (by decide),
   (c2_category_size_invariant fsCex3 eCex3 tAll).2.2.2.2.1 fsMerge "c2x" "hz"
     [] [] (by decide),
   (c2_category_size_invariant fsCex3 eCex3 tAll).2.2.2.2.2 fsMerge "c2x" "hz"
     [] [] (by decide)⟩

/-- C3 amended: for each requested category with positive cached size on
which removePaths reclaims a positive number of bytes, the category block
zeroes the cached size and marks the category role changed, but the path
set of the category is left unchanged, never emptied; roles marked changed
by an earlier block survive the later blocks, so every such category is
still marked in the changed vector returned by clearEntry. -/
theorem c3_clear_zeroes_size_not_paths (fs : FS) (e : MEntry) (types : DataTypes) :
    ((MModel.clearEntry fs e types).entry.config_paths = e.config_paths ∧
     (MModel.clearEntry fs e types).entry.cache_paths = e.cache_paths ∧
     (MModel.clearEntry fs e types).entry.data_paths = e.data_paths) ∧
    (types.config = true → 0 < e.config_size →
      0 < (MModel.removePaths fs e.config_paths).reclaimed →
      (MModel.clearEntry fs e types).entry.config_size = 0 ∧
      ConfigSizeRole ∈ (MModel.clearEntry fs e types).changed) ∧
    (∀ st : ClearState, types.cache = true → 0 < st.entry.cache_size →
      0 < (MModel.removePaths st.fs st.entry.cache_paths).reclaimed →
      (MModel.clearStepCache types st).entry.cache_size = 0 ∧
      CacheSizeRole ∈ (MModel.clearStepCache types st).changed) ∧
    (∀ st : ClearState, types.localData = true → 0 < st.entry.data_size →
      0 < (MModel.removePaths st.fs st.entry.data_paths).reclaimed →
      (MModel.clearStepData types st).entry.data_size = 0 ∧
      LocalDataSizeRole ∈ (MModel.clearStepData types st).changed) ∧
    (∀ st : ClearState, ∀ role ∈ st.changed,
      role ∈ (MModel.clearStepCache types st).changed ∧
      role ∈ (MModel.clearStepData types st).changed) := by
  refine ⟨⟨?_, ?_, ?_⟩, ?_, ?_, ?_, ?_⟩
  · unfold MModel.clearEntry
    rw [(clearStepData_entry types _).1, (clearStepCache_entry types _).1,
      (clearStepConfig_entry types _).1]
  · unfold MModel.clearEntry
    rw [(clearStepData_entry types _).2.1, (clearStepCache_entry types _).2.1,
      (clearStepConfig_entry types _).2.1]
  · unfold MModel.clearEntry
    rw [(clearStepData_entry types _).2.2.1, (clearStepCache_entry types _).2.2.1,
      (clearStepConfig_entry types _).2.2.1]
  · intro hflag hpos hrec
    unfold MModel.clearEntry
    rw [clearStepConfig_spec types ⟨fs, e, 0, [], []⟩ hflag hpos hrec]
    constructor
    · rw [(clearStepData_entry types _).2.2.2.1, (clearStepCache_entry types _).2.2.2.1]
    · apply clearStepData_changed_sub
      apply clearStepCache_changed_sub
      simp
  · intro st hflag hpos hrec
    rw [clearStepCache_spec types st hflag hpos hrec]
    exact ⟨rfl, by simp⟩
  · intro st hflag hpos hrec
    rw [clearStepData_spec types st hflag hpos hrec]
    exact ⟨rfl, by simp⟩
  · intro st role hr
    exact ⟨clearStepCache_changed_sub types st role hr,
      clearStepData_changed_sub types st role hr⟩

theorem c3_clear_zeroes_size_not_paths_witness :
    ((MModel.clearEntry fsCex3 eCex3 tCfgOnly).entry.config_size = 0 ∧
     ConfigSizeRole ∈ (MModel.clearEntry fsCex3 eCex3 tCfgOnly).changed) ∧
    ((MModel.clearStepCache tAll stCl3a).entry.cache_size = 0 ∧
     CacheSizeRole ∈ (MModel.clearStepCache tAll stCl3a).changed) ∧
    ((MModel.clearStepData tAll stCl3b).entry.data_size = 0 ∧
     LocalDataSizeRole ∈ (MModel.clearStepData tAll stCl3b).changed) ∧
    ConfigSizeRole ∈ (MModel.clearStepCache tAll stCl3a).changed :=
  ⟨(c3_clear_zeroes_size_not_paths fsCex3 eCex3 tCfgOnly).2.1 rfl (by decide)
     (by decide),
   (c3_clear_zeroes_size_not_paths fsCex3 eCex3 tAll).2.2.1 stCl3a rfl (by decide)
     (by decide),
   (c3_clear_zeroes_size_not_paths fsCex3 eCex3 tAll).2.2.2.1 stCl3b rfl (by decide)
     (by decide),
   ((c3_clear_zeroes_size_not_paths fsCex3 eCex3 tAll).2.2.2.2 stCl3a ConfigSizeRole
     (by decide)).1⟩

theorem calculateTotal_names (s : MModelState) :
    (MModel.calculateTotal s).1.names = s.names := rfl

theorem calculateTotal_entries (s : MModelState) :
    (MModel.calculateTotal s).1.entries = s.entries := rfl

theorem deleteDataImpl_state (fs : FS) (s : MModelState) (name : String)
    (types : DataTypes) (e : MEntry) (hl : mapLookup s.entries name = some e) :
    (MModel.deleteDataImpl fs s name types).2.1.names =
      (if (MModel.clearEntry fs e types).entry.existsb = false
       then s.names.erase name else s.names) ∧
    (MModel.deleteDataImpl fs s name types).2.1.entries =
      (if (MModel.clearEntry fs e types).entry.existsb = false
       then mapRemove s.entries name
       else mapInsert s.entries name (MModel.clearEntry fs e types).entry) := by
  simp only [MModel.deleteDataImpl, hl]
  cases hE : (MModel.clearEntry fs e types).entry.existsb with
  | false =>
    simp only [hE, Bool.not_false, if_true]
    constructor <;> (dsimp only; split <;> rfl)
  | true =>
    simp only [hE, Bool.not_true, Bool.false_eq_true, if_false, Bool.true_eq_false]
    constructor <;> (dsimp only; split <;> rfl)

theorem removePaths_nil (fs : FS) : MModel.removePaths fs [] = ⟨fs, 0, [], []⟩ := by
  simp [MModel.removePaths, MModel.removeLoop]

theorem clearStepConfig_size_of_nil (types : DataTypes) (st : ClearState)
    (h : st.entry.config_paths = []) :
    (MModel.clearStepConfig types st).entry.config_size = st.entry.config_size := by
  unfold MModel.clearStepConfig
  split
  · dsimp only
    rw [h, removePaths_nil]
    simp
  · rfl

theorem clearStepCache_size_of_nil (types : DataTypes) (st : ClearState)
    (h : st.entry.cache_paths = []) :
    (MModel.clearStepCache types st).entry.cache_size = st.entry.cache_size := by
  unfold MModel.clearStepCache
  split
  · dsimp only
    rw [h, removePaths_nil]
    simp
  · rfl

theorem clearStepData_size_of_nil (types : DataTypes) (st : ClearState)
    (h : st.entry.data_paths = []) :
    (MModel.clearStepData types st).entry.data_size = st.entry.data_size := by
  unfold MModel.clearStepData
  split
  · dsimp only
    rw [h, removePaths_nil]
    simp
  · rfl

theorem clearEntry_sizes_of_nil (fs : FS) (e : MEntry) (types : DataTypes) :
    (e.config_paths = [] →
      (MModel.clearEntry fs e types).entry.config_size = e.config_size) ∧
    (e.cache_paths = [] →
      (MModel.clearEntry fs e types).entry.cache_size = e.cache_size) ∧
    (e.data_paths = [] →
      (MModel.clearEntry fs e types).entry.data_size = e.data_size) := by
  refine ⟨?_, ?_, ?_⟩
  · intro h
    unfold MModel.clearEntry
    rw [(clearStepData_entry types _).2.2.2.1, (clearStepCache_entry types _).2.2.2.1]
    exact clearStepConfig_size_of_nil types _ h
  · intro h
    unfold MModel.clearEntry
    rw [(clearStepData_entry types _).2.2.2.2.1]
    have h1 : (MModel.clearStepConfig types ⟨fs, e, 0, [], []⟩).entry.cache_paths
        = [] := by
      rw [(clearStepConfig_entry types _).2.1]
      exact h
    rw [clearStepCache_size_of_nil types _ h1]
    exact (clearStepConfig_entry types _).2.2.2.1
  · intro h
    unfold MModel.clearEntry
    have h1 : (MModel.clearStepCache types (MModel.clearStepConfig types
        ⟨fs, e, 0, [], []⟩)).entry.data_paths = [] := by
      rw [(clearStepCache_entry types _).2.2.1, (clearStepConfig_entry types _).2.2.1]
      exact h
    rw [clearStepData_size_of_nil types _ h1,
      (clearStepCache_entry types _).2.2.2.2.1]
    exact (clearStepConfig_entry types _).2.2.2.2.1

theorem allEmpty_false_of_existsb {e : MEntry} (h : e.existsb = true) :
    e.allEmpty = false := by
  simp only [MEntry.existsb, Bool.or_eq_true, decide_eq_true_eq] at h
  rcases h with (h | h) | h
  · simp [MEntry.allEmpty, beq_eq_false_iff_ne.mpr (ne_of_gt h)]
  · simp [MEntry.allEmpty, beq_eq_false_iff_ne.mpr (ne_of_gt h)]
  · simp [MEntry.allEmpty, beq_eq_false_iff_ne.mpr (ne_of_gt h)]

theorem clearEntry_preserves_fields (fs : FS) (e : MEntry) (types : DataTypes) :
    (MModel.clearEntry fs e types).entry.installed = e.installed ∧
    (MModel.clearEntry fs e types).entry.title = e.title ∧
    (MModel.clearEntry fs e types).entry.icon = e.icon ∧
    (MModel.clearEntry fs e types).entry.config_paths = e.config_paths ∧
    (MModel.clearEntry fs e types).entry.cache_paths = e.cache_paths ∧
    (MModel.clearEntry fs e types).entry.data_paths = e.data_paths := by
  unfold MModel.clearEntry
  refine ⟨?_, ?_, ?_, ?_, ?_, ?_⟩
  · rw [(clearStepData_entry types _).2.2.2.2.2.1,
      (clearStepCache_entry types _).2.2.2.2.2.1,
      (clearStepConfig_entry types _).2.2.2.2.2.1]
  · rw [(clearStepData_entry types _).2.2.2.2.2.2.1,
      (clearStepCache_entry types _).2.2.2.2.2.2.1,
      (clearStepConfig_entry types _).2.2.2.2.2.2.1]
  · rw [(clearStepData_entry types _).2.2.2.2.2.2.2,
      (clearStepCache_entry types _).2.2.2.2.2.2.2,
      (clearStepConfig_entry types _).2.2.2.2.2.2.2]
  · rw [(clearStepData_entry types _).1, (clearStepCache_entry types _).1,
      (clearStepConfig_entry types _).1]
  · rw [(clearStepData_entry types _).2.1, (clearStepCache_entry types _).2.1,
      (clearStepConfig_entry types _).2.1]
  · rw [(clearStepData_entry types _).2.2.1, (clearStepCache_entry types _).2.2.1,
      (clearStepConfig_entry types _).2.2.1]

theorem dudLoop_keys (types : DataTypes) :
    ∀ (entries : List (String × MEntry)) (fs : FS) (names : List String)
      (k : String),
    k ∈ (MModel.dudLoop types fs entries names).2.1.map Prod.fst →
    k ∈ entries.map Prod.fst := by
  intro entries
  induction entries with
  | nil =>
    intro fs names k h
    simp [MModel.dudLoop] at h
  | cons kv rest ih =>
    obtain ⟨k0, e0⟩ := kv
    intro fs names k h
    cases hi : e0.installed with
    | true =>
      simp only [MModel.dudLoop, hi, if_true] at h
      rcases List.mem_cons.mp h with hk | hk
      · simp [hk]
      · simp [ih _ _ k hk]
    | false =>
      cases hE : (MModel.clearEntry fs e0 types).entry.existsb with
      | false =>
        simp only [MModel.dudLoop, hi, Bool.false_eq_true, if_false, hE,
          Bool.not_false, if_true] at h
        simp [ih _ _ k h]
      | true =>
        simp only [MModel.dudLoop, hi, Bool.false_eq_true, if_false, hE,
          Bool.not_true, if_true] at h
        rcases List.mem_cons.mp h with hk | hk
        · simp [hk]
        · simp [ih _ _ k hk]

theorem dudLoop_lookup (types : DataTypes) :
    ∀ (entries : List (String × MEntry)) (fs : FS) (names : List String),
    (entries.map Prod.fst).Nodup →
    ((∀ k e, mapLookup entries k = some e → e.installed = true →
        mapLookup (MModel.dudLoop types fs entries names).2.1 k = some e) ∧
     (∀ k e₁, mapLookup (MModel.dudLoop types fs entries names).2.1 k = some e₁ →
        ∃ e, mapLookup entries k = some e ∧
          (e₁ = e ∨ ∃ fs2 : FS, e₁ = (MModel.clearEntry fs2 e types).entry))) := by
  intro entries
  induction entries with
  | nil =>
    intro fs names _
    constructor
    · intro k e hk
      simp [mapLookup] at hk
    · intro k e₁ hk
      simp [MModel.dudLoop, mapLookup] at hk
  | cons kv rest ih =>
    obtain ⟨k0, e0⟩ := kv
    intro fs names hnd
    have hk0 : k0 ∉ rest.map Prod.fst := (List.nodup_cons.mp hnd).1
    have hnd' : (rest.map Prod.fst).Nodup := (List.nodup_cons.mp hnd).2
    cases hi : e0.installed with
    | true =>
      have hout : (MModel.dudLoop types fs ((k0, e0) :: rest) names).2.1 =
          (k0, e0) :: (MModel.dudLoop types fs rest names).2.1 := by
        simp [MModel.dudLoop, hi]
      constructor
      · intro k e hk hins
        rw [hout]
        by_cases hkk : k = k0
        · subst hkk
          simp only [mapLookup, beq_iff_eq, if_pos rfl] at hk ⊢
          exact hk
        · simp only [mapLookup, beq_iff_eq, if_neg hkk] at hk ⊢
          exact (ih fs names hnd').1 k e hk hins
      · intro k e₁ hk
        rw [hout] at hk
        by_cases hkk : k = k0
        · subst hkk
          simp only [mapLookup, beq_iff_eq, if_pos rfl] at hk ⊢
          obtain rfl := Option.some.inj hk
          exact ⟨e0, rfl, Or.inl rfl⟩
        · simp only [mapLookup, beq_iff_eq, if_neg hkk] at hk ⊢
          exact (ih fs names hnd').2 k e₁ hk
    | false =>
      cases hE : (MModel.clearEntry fs e0 types).entry.existsb with
      | true =>
        have hout : (MModel.dudLoop types fs ((k0, e0) :: rest) names).2.1 =
            (k0, (MModel.clearEntry fs e0 types).entry) ::
              (MModel.dudLoop types (MModel.clearEntry fs e0 types).fs rest
                names).2.1 := by
          simp [MModel.dudLoop, hi, hE]
        constructor
        · intro k e hk hins
          rw [hout]
          by_cases hkk : k = k0
          · subst hkk
            simp only [mapLookup, beq_iff_eq, if_pos rfl] at hk
            obtain rfl := Option.some.inj hk
            rw [hins] at hi
            cases hi
          · simp only [mapLookup, beq_iff_eq, if_neg hkk] at hk ⊢
            exact (ih _ names hnd').1 k e hk hins
        · intro k e₁ hk
          rw [hout] at hk
          by_cases hkk : k = k0
          · subst hkk
            simp only [mapLookup, beq_iff_eq, if_pos rfl] at hk ⊢
            obtain rfl := Option.some.inj hk
            exact ⟨e0, rfl, Or.inr ⟨fs, rfl⟩⟩
          · simp only [mapLookup, beq_iff_eq, if_neg hkk] at hk ⊢
            exact (ih _ names hnd').2 k e₁ hk
      | false =>
        have hout : (MModel.dudLoop types fs ((k0, e0) :: rest) names).2.1 =
            (MModel.dudLoop types (MModel.clearEntry fs e0 types).fs rest
              (names.erase k0)).2.1 := by
          simp [MModel.dudLoop, hi, hE]
        constructor
        · intro k e hk hins
          rw [hout]
          by_cases hkk : k = k0
          · subst hkk
            simp only [mapLookup, beq_iff_eq, if_pos rfl] at hk
            obtain rfl := Option.some.inj hk
            rw [hins] at hi
            cases hi
          · simp only [mapLookup, beq_iff_eq, if_neg hkk] at hk
            exact (ih _ (names.erase k0) hnd').1 k e hk hins
        · intro k e₁ hk
          rw [hout] at hk
          by_cases hkk : k = k0
          · subst hkk
            exact absurd (dudLoop_keys types rest _ _ k (mapLookup_mem_keys hk))
              hk0
          · simp only [mapLookup, beq_iff_eq, if_neg hkk]
            exact (ih _ (names.erase k0) hnd').2 k e₁ hk

theorem deleteDataImpl_noop_of_absent (fs : FS) (s : MModelState) (name : String)
    (types : DataTypes) (h : mapLookup s.entries name = none) :
    MModel.deleteDataImpl fs s name types = (fs, s, []) := by
  simp [MModel.deleteDataImpl, h]

theorem deleteUnusedDataImpl_entries (fs : FS) (s : MModelState)
    (types : DataTypes) :
    (MModel.deleteUnusedDataImpl fs s types).2.1.entries =
      (MModel.dudLoop types fs s.entries s.names).2.1 := by
  unfold MModel.deleteUnusedDataImpl
  dsimp only
  split <;> rfl

/-- C8: deletion operations never touch installed records and never change
the installed flag. Every record with installed true is carried through
deleteUnusedDataImpl completely unchanged; every record present after
deleteUnusedDataImpl descends from the record of the same name before it,
with the same installed flag, title, icon and path lists; and every record
present after deleteDataImpl likewise keeps the installed flag of its
predecessor. -/
theorem c8_deletions_preserve_installed (fs : FS) (s : MModelState)
    (types : DataTypes) (name2 : String)
    (hknd : (s.entries.map Prod.fst).Nodup) :
    (∀ k e, mapLookup s.entries k = some e → e.installed = true →
      mapLookup (MModel.deleteUnusedDataImpl fs s types).2.1.entries k = some e) ∧
    (∀ k e₁,
      mapLookup (MModel.deleteUnusedDataImpl fs s types).2.1.entries k = some e₁ →
      ∃ e, mapLookup s.entries k = some e ∧ e₁.installed = e.installed ∧
        e₁.title = e.title ∧ e₁.icon = e.icon ∧
        e₁.config_paths = e.config_paths ∧ e₁.cache_paths = e.cache_paths ∧
        e₁.data_paths = e.data_paths) ∧
    (∀ k e₁,
      mapLookup (MModel.deleteDataImpl fs s name2 types).2.1.entries k = some e₁ →
      ∃ e, mapLookup s.entries k = some e ∧ e₁.installed = e.installed) := by
  refine ⟨?_, ?_, ?_⟩
  · intro k e hk hins
    rw [deleteUnusedDataImpl_entries]
    exact (dudLoop_lookup types s.entries fs s.names hknd).1 k e hk hins
  · intro k e₁ hk
    rw [deleteUnusedDataImpl_entries] at hk
    obtain ⟨e, hpre, hrel⟩ :=
      (dudLoop_lookup types s.entries fs s.names hknd).2 k e₁ hk
    rcases hrel with rfl | ⟨fs2, rfl⟩
    · exact ⟨e₁, hpre, rfl, rfl, rfl, rfl, rfl, rfl⟩
    · have hf := clearEntry_preserves_fields fs2 e types
      exact ⟨e, hpre, hf.1, hf.2.1, hf.2.2.1, hf.2.2.2.1, hf.2.2.2.2.1,
        hf.2.2.2.2.2⟩
  · intro k e₁ hk
    cases hl : mapLookup s.entries name2 with
    | none =>
      rw [deleteDataImpl_noop_of_absent fs s name2 types hl] at hk
      exact ⟨e₁, hk, rfl⟩
    | some e =>
      have hstate := deleteDataImpl_state fs s name2 types e hl
      cases hE : (MModel.clearEntry fs e types).entry.existsb with
      | false =>
        rw [hstate.2, if_pos hE] at hk
        by_cases hkn : k = name2
        · subst hkn
          rw [mapRemove_lookup_self hknd] at hk
          cases hk
        · rw [mapRemove_lookup_ne hkn] at hk
          exact ⟨e₁, hk, rfl⟩
      | true =>
        rw [hstate.2, if_neg (by simp [hE])] at hk
        by_cases hkn : k = name2
        · subst hkn
          rw [mapInsert_lookup_self] at hk
          obtain rfl := Option.some.inj hk
          exact ⟨e, hl, (clearEntry_preserves_fields fs e types).1⟩
        · rw [mapInsert_lookup_ne _ hkn] at hk
          exact ⟨e₁, hk, rfl⟩

theorem c8_deletions_preserve_installed_witness :
    mapLookup (MModel.deleteUnusedDataImpl fsW8 stW8 tAll).2.1.entries "iaa" =
      some entW8a :=
  (c8_deletions_preserve_installed fsW8 stW8 tAll "xxx" (by decide)).1 "iaa"
    entW8a (by decide) (by decide)

/-- C6: no emptied record survives a deletion operation. In a registry whose
records are never retained with all three categories empty (no paths, zero
sizes), neither deleteData nor deleteUnusedData leaves such a record behind;
and when clearing leaves the requested record of deleteData without any
positive category size, the record is erased from the ordered name list and
from the map, so it is absent from subsequent row queries and the row count
decreases by exactly one. -/
theorem c6_empty_records_pruned (fs : FS) (s : MModelState) (name : String)
    (types : DataTypes) (e : MEntry)
    (hl : mapLookup s.entries name = some e)
    (hmem : name ∈ s.names)
    (hknd : (s.entries.map Prod.fst).Nodup)
    (hother : ∀ k e₀, mapLookup s.entries k = some e₀ → e₀.allEmpty = false) :
    (∀ k e₁,
      mapLookup (MModel.deleteDataImpl fs s name types).2.1.entries k = some e₁ →
      e₁.allEmpty = false) ∧
    ((MModel.clearEntry fs e types).entry.existsb = false →
      (MModel.deleteDataImpl fs s name types).2.1.names = s.names.erase name ∧
      mapLookup (MModel.deleteDataImpl fs s name types).2.1.entries name = none ∧
      (MModel.deleteDataImpl fs s name types).2.1.names.length + 1 =
        s.names.length) ∧
    (∀ k e₁,
      mapLookup (MModel.deleteUnusedDataImpl fs s types).2.1.entries k = some e₁ →
      e₁.allEmpty = false) := by
  have hstate := deleteDataImpl_state fs s name types e hl
  refine ⟨?_, ?_, ?_⟩
  · intro k e₁ hk
    cases hE : (MModel.clearEntry fs e types).entry.existsb with
    | false =>
      rw [hstate.2, if_pos hE] at hk
      by_cases hkn : k = name
      · subst hkn
        rw [mapRemove_lookup_self hknd] at hk
        cases hk
      · rw [mapRemove_lookup_ne hkn] at hk
        exact hother k e₁ hk
    | true =>
      rw [hstate.2, if_neg (by simp [hE])] at hk
      by_cases hkn : k = name
      · subst hkn
        rw [mapInsert_lookup_self] at hk
        obtain rfl := Option.some.inj hk
        exact allEmpty_false_of_existsb hE
      · rw [mapInsert_lookup_ne _ hkn] at hk
        exact hother k e₁ hk
  · intro hE
    refine ⟨?_, ?_, ?_⟩
    · rw [hstate.1, if_pos hE]
    · rw [hstate.2, if_pos hE]
      exact mapRemove_lookup_self hknd
    · rw [hstate.1, if_pos hE, List.length_erase_of_mem hmem]
      have hpos := List.length_pos_of_mem hmem
      omega
  · intro k e₁ hk
    rw [deleteUnusedDataImpl_entries] at hk
    obtain ⟨e₀, hpre, hrel⟩ :=
      (dudLoop_lookup types s.entries fs s.names hknd).2 k e₁ hk
    rcases hrel with rfl | ⟨fs2, rfl⟩
    · exact hother k e₁ hpre
    · cases hAE : (MModel.clearEntry fs2 e₀ types).entry.allEmpty with
      | false => rfl
      | true =>
        exfalso
        have hf := clearEntry_preserves_fields fs2 e₀ types
        simp only [MEntry.allEmpty, Bool.and_eq_true, List.isEmpty_iff,
          beq_iff_eq] at hAE
        obtain ⟨⟨⟨⟨⟨hcp, hchp⟩, hdp⟩, hcs⟩, hchs⟩, hds⟩ := hAE
        rw [hf.2.2.2.1] at hcp
        rw [hf.2.2.2.2.1] at hchp
        rw [hf.2.2.2.2.2] at hdp
        have hz := clearEntry_sizes_of_nil fs2 e₀ types
        have hcs0 : e₀.config_size = 0 := by
          rw [← hz.1 hcp]
          exact hcs
        have hchs0 : e₀.cache_size = 0 := by
          rw [← hz.2.1 hchp]
          exact hchs
        have hds0 : e₀.data_size = 0 := by
          rw [← hz.2.2 hdp]
          exact hds
        have hall : e₀.allEmpty = true := by
          simp [MEntry.allEmpty, hcp, hchp, hdp, hcs0, hchs0, hds0]
        rw [hother k e₀ hpre] at hall
        cases hall

theorem c6_empty_records_pruned_witness :
    mapLookup (MModel.deleteDataImpl fsW6 stW6 "qqq" tCacheOnly).2.1.entries
      "qqq" = none ∧
    (MModel.deleteDataImpl fsW6 stW6 "qqq" tCacheOnly).2.1.names =
      stW6.names.erase "qqq" ∧
    (MModel.deleteDataImpl fsW6 stW6 "qqq" tCacheOnly).2.1.names.length + 1 =
      stW6.names.length := by
  have hother : ∀ k e₀, mapLookup stW6.entries k = some e₀ →
      e₀.allEmpty = false := by
    intro k e₀ h
    simp only [stW6, mapLookup] at h
    split at h
    · obtain rfl := Option.some.inj h
      decide
    · split at h
      · obtain rfl := Option.some.inj h
        decide
      · cases h
  have h := c6_empty_records_pruned fsW6 stW6 "qqq" tCacheOnly entW6
    (by decide) (by decide) (by decide) hother
  have h2 := h.2.1 (by decide)
  exact ⟨h2.2.1, h2.1, h2.2.2⟩
